import Mathlib

/-
Verification of the real-time game-session core of the multiplayer
item-collection game (the GameCanvas simulation unit and its Session
Finalizer).  The definitions below are a shallow embedding of the
TypeScript source: machine numbers become `Int`/`Nat`, the held-key set
becomes a list of key strings, `Math.random` draws become explicit
choice functions, and the per-frame callbacks become explicit state
transformers folded over tick lists.
-/

namespace Game

/-- The `Collectible` interface of the canvas unit: identity (modelled as
the `Date.now()` stamp paired with the loop index), position, kind,
point value and the consumed flag. -/
structure Collectible where
  id : Int × Nat
  x : Int
  y : Int
  type : String
  value : Int
  collected : Bool
deriving DecidableEq

/-- The weighted kind pool of `initializeCollectibles`
(`['coin', 'coin', 'coin', 'gem', 'gem', 'star']`). -/
def types : List String := ["coin", "coin", "coin", "gem", "gem", "star"]

/-- The `values` record of `initializeCollectibles`:
coin 10, gem 25, star 50. -/
def values (t : String) : Int :=
  if t = "coin" then 10 else if t = "gem" then 25 else if t = "star" then 50 else 0

/-- `initializeCollectibles`, parameterised over the random draws:
`pick i` is the uniformly chosen index into the kind pool for item `i`,
`posf i` its random position, `dateNow` the `Date.now()` stamp used in
the ids.  Produces the 20 session items, each uncollected. -/
def initializeCollectibles (dateNow : Int) (pick : Nat → Fin types.length)
    (posf : Nat → Int × Int) : List Collectible :=
  (List.range 20).map (fun i =>
    let t := types.get (pick i)
    { id := (dateNow, i), x := (posf i).1, y := (posf i).2,
      type := t, value := values t, collected := false })

/-- Held-key test for up: the source checks `'arrowup'` or `'w'` in the
pressed-key set. -/
def heldUp (keys : List String) : Bool :=
  keys.contains "arrowup" || keys.contains "w"

/-- Held-key test for down (`'arrowdown'` or `'s'`). -/
def heldDown (keys : List String) : Bool :=
  keys.contains "arrowdown" || keys.contains "s"

/-- Held-key test for left (`'arrowleft'` or `'a'`). -/
def heldLeft (keys : List String) : Bool :=
  keys.contains "arrowleft" || keys.contains "a"

/-- Held-key test for right (`'arrowright'` or `'d'`). -/
def heldRight (keys : List String) : Bool :=
  keys.contains "arrowright" || keys.contains "d"

/-- The collision test of `checkCollisions`: Euclidean distance from the
player position to the item centre below `playerRadius + 15` with
`playerRadius = 20`, expressed on squared distances (equivalent since
both sides are nonnegative). -/
def hit (x y : Int) (item : Collectible) : Bool :=
  (item.x - x) * (item.x - x) + (item.y - y) * (item.y - y) < 35 * 35

/-- The per-item body of the `checkCollisions` map: an already collected
item is returned unchanged, an uncollected item within collision
distance is marked collected, any other item is returned unchanged. -/
def collectStep (x y : Int) (item : Collectible) : Collectible :=
  if item.collected then item
  else if hit x y item then { item with collected := true } else item

/-- `checkCollisions`: every not-yet-collected item within collision
distance is marked collected and its value accumulated onto the score;
the score state is rewritten only when some item was newly collected and
the accumulated value differs.  The source performs the three folds in a
single pass over the list. -/
def checkCollisions (x y : Int) (items : List Collectible) (myScore : Int) :
    List Collectible × Int :=
  let newItems := items.map (collectStep x y)
  let newScore := items.foldl (fun acc item =>
    if !item.collected && hit x y item then acc + item.value else acc) myScore
  let scoreChanged := items.any (fun item => !item.collected && hit x y item)
  (newItems, if scoreChanged && newScore != myScore then newScore else myScore)

/-- The mutable per-session state of the canvas unit: `myPosition`,
`myScore`, the collectibles and the `lastUpdateTime` ref. -/
structure GameState where
  pos : Int × Int
  myScore : Int
  items : List Collectible
  lastUpdateTime : Int
deriving DecidableEq

/-- The fixed per-axis step of `updateGame` (`const speed = 5`). -/
def speed : Int := 5

/-- The horizontal candidate coordinate of `updateGame`: the left and
right steps are applied by two independent conditionals. -/
def stepX (keys : List String) (x : Int) : Int :=
  let x1 := if heldLeft keys then x - speed else x
  if heldRight keys then x1 + speed else x1

/-- The vertical candidate coordinate of `updateGame`: the up and down
steps are applied by two independent conditionals. -/
def stepY (keys : List String) (y : Int) : Int :=
  let y1 := if heldUp keys then y - speed else y
  if heldDown keys then y1 + speed else y1

/-- One `updateGame` call at wall-clock instant `now` with the currently
held keys: returns early when fewer than 16 ms elapsed since
`lastUpdateTime`; otherwise applies the 5-unit steps per held direction,
clamps each axis into `[20, 780] × [20, 580]`, adopts the position when
it changed, emits an outbound position push (and resets
`lastUpdateTime`) when additionally more than 50 ms elapsed, and runs
collision detection at the new coordinates.  The second component is the
emitted `onPositionUpdate` push, if any. -/
def updateGame (now : Int) (keys : List String) (s : GameState) :
    GameState × Option (Int × Int) :=
  if now - s.lastUpdateTime < 16 then (s, none)
  else
    let newX := max 20 (min 780 (stepX keys s.pos.1))
    let newY := max 20 (min 580 (stepY keys s.pos.2))
    let cc := checkCollisions newX newY s.items s.myScore
    if newX ≠ s.pos.1 ∨ newY ≠ s.pos.2 then
      if 50 < now - s.lastUpdateTime then
        ({ pos := (newX, newY), myScore := cc.2, items := cc.1,
           lastUpdateTime := now }, some (newX, newY))
      else
        ({ pos := (newX, newY), myScore := cc.2, items := cc.1,
           lastUpdateTime := s.lastUpdateTime }, none)
    else
      ({ pos := s.pos, myScore := cc.2, items := cc.1,
         lastUpdateTime := s.lastUpdateTime }, none)

/-- A simulation run: fold `updateGame` over a list of
(wall-clock instant, held keys) ticks. -/
def runGame : List (Int × List String) → GameState → GameState
  | [], s => s
  | t :: ts, s => runGame ts (updateGame t.1 t.2 s).1

/-- The wall-clock instants of the outbound position pushes emitted
during a run, in order. -/
def pushTimes : List (Int × List String) → GameState → List Int
  | [], _ => []
  | t :: ts, s =>
    match updateGame t.1 t.2 s with
    | (s', some _) => t.1 :: pushTimes ts s'
    | (s', none) => pushTimes ts s'

/-- Initial canvas state: `myPosition = (400, 300)`, `myScore = 0`,
`lastUpdateTime = 0`. -/
def initState (items : List Collectible) : GameState :=
  { pos := (400, 300), myScore := 0, items := items, lastUpdateTime := 0 }

/-- The collectibles actually drawn by `renderGame`: its loop skips every
item whose `collected` flag is set. -/
def renderItems (items : List Collectible) : List Collectible :=
  items.filter (fun item => !item.collected)

/-- One countdown timer tick: the functional update the `setInterval`
body passes to `setGameTime`, instrumented with a count of `endGame`
invocations.  On a reading of at most 1 the source calls `endGame` and
sets the countdown to 0; otherwise it decrements. -/
def timerTick : Nat × Nat → Nat × Nat
  | (prev, calls) => if prev ≤ 1 then (0, calls + 1) else (prev - 1, calls)

/-- `n` consecutive countdown timer ticks. -/
def runTimer : Nat → Nat × Nat → Nat × Nat
  | 0, s => s
  | n + 1, s => runTimer n (timerTick s)

/-- Claim C1: the Session Finalizer (`endGame`) is claimed to fire exactly
once per session.  The countdown update is gated on the level value
`prev <= 1`, not on a transition edge, and the interval is only cleared
on component teardown: starting from the initial reading 60, the
zero-crossing tick (the 60th) invokes `endGame`, and each further tick
observes the reading 0 and invokes `endGame` again — after 62 ticks the
countdown holds at 0 but `endGame` has been invoked three times. -/
theorem endGame_repeats :
    runTimer 60 (60, 0) = (0, 1) ∧ runTimer 61 (60, 0) = (0, 2) ∧
      runTimer 62 (60, 0) = (0, 3) := by
  refine ⟨?_, ?_, ?_⟩ <;> rfl

/-- The arena-interior bounds of the clamp in `updateGame`. -/
def inBounds (p : Int × Int) : Prop :=
  20 ≤ p.1 ∧ p.1 ≤ 780 ∧ 20 ≤ p.2 ∧ p.2 ≤ 580

theorem updateGame_inBounds (now : Int) (keys : List String) (s : GameState)
    (h : inBounds s.pos) : inBounds ((updateGame now keys s).1).pos := by
  unfold updateGame
  split
  · exact h
  · dsimp only
    simp only [inBounds] at h ⊢
    split <;> (try split) <;> (dsimp only; omega)

theorem runGame_inBounds (ticks : List (Int × List String)) (s : GameState)
    (h : inBounds s.pos) : inBounds (runGame ticks s).pos := by
  induction ticks generalizing s with
  | nil => exact h
  | cons t ts ih => exact ih _ (updateGame_inBounds t.1 t.2 s h)

/-- Claim C2: for every sequence of simulation ticks (each with an
arbitrary wall-clock instant and held-key set) and every initial
collectible field, the local position after the run lies within
`[20, 780] × [20, 580]`; since every prefix of a tick sequence is itself
a tick sequence, the position is in bounds after each tick. -/
theorem position_clamped (ticks : List (Int × List String))
    (items0 : List Collectible) :
    20 ≤ (runGame ticks (initState items0)).pos.1 ∧
      (runGame ticks (initState items0)).pos.1 ≤ 780 ∧
      20 ≤ (runGame ticks (initState items0)).pos.2 ∧
      (runGame ticks (initState items0)).pos.2 ≤ 580 :=
  runGame_inBounds ticks (initState items0)
    ⟨by norm_num [initState], by norm_num [initState], by norm_num [initState],
      by norm_num [initState]⟩

/-- Claim C4 counterexample: in the kind pool of
`initializeCollectibles` the common kind coin occupies 3 of the 6
equally likely entries and gem 2 of them, so coin is not three times as
likely as gem. -/
theorem coin_not_triple_gem : ¬ types.count "coin" = 3 * types.count "gem" := by
  decide

/-- Claim C4 (amended): `initializeCollectibles` produces exactly 20
items, each with kind drawn from the fixed six-entry pool (in which coin
has weight 3, gem weight 2 and star weight 1, so coin is three times as
likely as star but only 1.5 times as likely as gem), each with the value
fixed by its kind and each starting uncollected. -/
theorem initializeCollectibles_spec (dateNow : Int) (pick : Nat → Fin types.length)
    (posf : Nat → Int × Int) :
    (initializeCollectibles dateNow pick posf).length = 20 ∧
      (∀ it ∈ initializeCollectibles dateNow pick posf,
        it.collected = false ∧ it.type ∈ types ∧ it.value = values it.type) ∧
      types.count "coin" = 3 ∧ types.count "gem" = 2 ∧ types.count "star" = 1 := by
  refine ⟨by simp [initializeCollectibles], ?_, by decide, by decide, by decide⟩
  intro it hmem
  simp only [initializeCollectibles, List.mem_map, List.mem_range] at hmem
  obtain ⟨i, hi, rfl⟩ := hmem
  exact ⟨rfl, types.get_mem (pick i).1 (pick i).2, rfl⟩

theorem initializeCollectibles_spec_witness :
    (initializeCollectibles 0 (fun _ => ⟨0, by decide⟩) (fun _ => (100, 100))).length = 20 ∧
      (⟨(0, 0), 100, 100, "coin", 10, false⟩ : Collectible).collected = false := by
  have h := initializeCollectibles_spec 0 (fun _ => ⟨0, by decide⟩) (fun _ => (100, 100))
  exact ⟨h.1, (h.2.1 ⟨(0, 0), 100, 100, "coin", 10, false⟩ (by decide)).1⟩

/-- The remote `Player` profile row consumed by the canvas unit:
cumulative statistics plus display fields. -/
structure Player where
  id : String
  username : String
  avatar_color : String
  total_score : Int
  games_played : Int
  wins : Int
deriving DecidableEq

/-- The `players`-table update of `endGame`: accumulate the session
score onto the cumulative total, increment games played, and increment
wins exactly when this session's rank is 1. -/
def endGameStats (player : Player) (myScore : Int) (myRank : Int) : Player :=
  { player with
    total_score := player.total_score + myScore
    games_played := player.games_played + 1
    wins := if myRank = 1 then player.wins + 1 else player.wins }

/-- Claim C8: at finalization the local player's cumulative statistics
change by exactly the session score, exactly one game played, and one
win iff the computed rank is 1; given a nonnegative session score no
statistic decreases. -/
theorem endGameStats_spec (player : Player) (myScore myRank : Int)
    (h : 0 ≤ myScore) :
    (endGameStats player myScore myRank).total_score = player.total_score + myScore ∧
      (endGameStats player myScore myRank).games_played = player.games_played + 1 ∧
      ((endGameStats player myScore myRank).wins = player.wins + 1 ↔ myRank = 1) ∧
      (myRank ≠ 1 → (endGameStats player myScore myRank).wins = player.wins) ∧
      player.total_score ≤ (endGameStats player myScore myRank).total_score ∧
      player.games_played ≤ (endGameStats player myScore myRank).games_played ∧
      player.wins ≤ (endGameStats player myScore myRank).wins := by
  unfold endGameStats
  refine ⟨rfl, rfl, ?_, ?_, by dsimp only; omega, by dsimp only; omega, ?_⟩
  · dsimp only
    constructor
    · intro hw
      by_contra hr
      rw [if_neg hr] at hw
      omega
    · intro hr
      rw [if_pos hr]
  · intro hr
    dsimp only
    rw [if_neg hr]
  · dsimp only
    split <;> omega

theorem endGameStats_spec_witness :
    (endGameStats ⟨"p1", "alice", "#3B82F6", 100, 4, 2⟩ 30 1).total_score = 130 ∧
      (endGameStats ⟨"p1", "alice", "#3B82F6", 30, 4, 2⟩ 30 2).wins = 2 := by
  have h1 := endGameStats_spec ⟨"p1", "alice", "#3B82F6", 100, 4, 2⟩ 30 1 (by norm_num)
  have h2 := endGameStats_spec ⟨"p1", "alice", "#3B82F6", 30, 4, 2⟩ 30 2 (by norm_num)
  exact ⟨h1.1.trans (by decide), (h2.2.2.2.1 (by norm_num)).trans (by decide)⟩

/-- First counterexample frame for claim C9: a tick at instant 1000000
with the `'d'` key held, from the initial state (no collectibles). -/
def tickA : GameState := (updateGame 1000000 ["d"] (initState [])).1

/-- Second counterexample frame: 16 ms later; it executes and moves the
player, but emits no push, so `lastUpdateTime` stays at 1000000. -/
def tickB : GameState := (updateGame 1000016 ["d"] tickA).1

/-- Third counterexample frame: only 1 ms after the previous executed
tick. -/
def tickC : GameState := (updateGame 1000017 ["d"] tickB).1

/-- Claim C9 counterexample: the frame at instant 1000017 arrives 1 ms
after the executed tick at 1000016, yet it still advances the game state
(the position moves another 5 units), because the 16 ms gate compares
against the last push instant 1000000, not the last executed tick. -/
theorem tick_gate_counterexample :
    tickA.pos = (405, 300) ∧ tickB.pos = (410, 300) ∧ tickC.pos = (415, 300) ∧
      (1000017 : Int) - 1000016 < 16 := by
  refine ⟨?_, ?_, ?_, by norm_num⟩ <;> rfl

/-- Claim C9 (amended): the 16 ms gate measures elapsed wall-clock time
since the last outbound position push, not since the last executed tick:
a frame arriving less than 16 ms after the last push performs no state
update and emits nothing, and a frame that emits no push leaves the
`lastUpdateTime` reference unchanged, so consecutive executed ticks are
not in general 16 ms apart. -/
theorem sixteen_ms_gate (now : Int) (keys : List String) (s : GameState) :
    (now - s.lastUpdateTime < 16 → updateGame now keys s = (s, none)) ∧
      ((updateGame now keys s).2 = none →
        (updateGame now keys s).1.lastUpdateTime = s.lastUpdateTime) := by
  constructor
  · intro h
    unfold updateGame
    rw [if_pos h]
  · intro h
    unfold updateGame at h ⊢
    split at h <;> rename_i hgate
    · rw [if_pos hgate]
    · rw [if_neg hgate]
      dsimp only at h ⊢
      split at h <;> rename_i hmov
      · rw [if_pos hmov]
        split at h <;> rename_i hpush
        · simp at h
        · rw [if_neg hpush]
      · rw [if_neg hmov]

theorem sixteen_ms_gate_witness :
    updateGame 10 ["w"] (initState []) = (initState [], none) :=
  (sixteen_ms_gate 10 ["w"] (initState [])).1 (by norm_num [initState])

/-- The position actually adopted by a non-gated `updateGame` tick: the
clamped candidate coordinates (when the candidate equals the previous
position the state keeps the old position, which is the same pair). -/
theorem updateGame_pos (now : Int) (keys : List String) (s : GameState)
    (h : ¬ now - s.lastUpdateTime < 16) :
    ((updateGame now keys s).1).pos =
      (max 20 (min 780 (stepX keys s.pos.1)), max 20 (min 580 (stepY keys s.pos.2))) := by
  unfold updateGame
  rw [if_neg h]
  dsimp only
  split
  · split <;> rfl
  · rename_i hmov
    push_neg at hmov
    dsimp only
    rw [hmov.1, hmov.2]

theorem sq_of_pm_five {a b : Int} (h : a - b = 5 ∨ a - b = -5) :
    (a - b) * (a - b) = 25 := by
  rcases h with h | h <;> rw [h] <;> norm_num

/-- Horizontal displacement of a tick, away from the clamp bounds: one
effective horizontal direction gives exactly ±5, none gives 0. -/
theorem stepX_clamp (keys : List String) (x : Int) (h1 : 25 ≤ x) (h2 : x ≤ 775) :
    (heldLeft keys ≠ heldRight keys →
        max 20 (min 780 (stepX keys x)) - x = 5 ∨
          max 20 (min 780 (stepX keys x)) - x = -5) ∧
      (heldLeft keys = false → heldRight keys = false →
        max 20 (min 780 (stepX keys x)) = x) := by
  cases hL : heldLeft keys <;> cases hR : heldRight keys <;>
    simp [stepX, speed, hL, hR] <;> omega

/-- Vertical displacement of a tick, away from the clamp bounds. -/
theorem stepY_clamp (keys : List String) (y : Int) (h1 : 25 ≤ y) (h2 : y ≤ 575) :
    (heldUp keys ≠ heldDown keys →
        max 20 (min 580 (stepY keys y)) - y = 5 ∨
          max 20 (min 580 (stepY keys y)) - y = -5) ∧
      (heldUp keys = false → heldDown keys = false →
        max 20 (min 580 (stepY keys y)) = y) := by
  cases hU : heldUp keys <;> cases hD : heldDown keys <;>
    simp [stepY, speed, hU, hD] <;> omega

/-- Claim C6: on an executed tick whose result is not clamped (the
previous position is at least 5 units inside every bound), holding one
vertical and one horizontal movement key moves the player exactly 5
units on each axis, a displacement of squared magnitude 50 (no diagonal
normalization), while a single held direction moves exactly 5 units
(squared magnitude 25). -/
theorem diagonal_speed (now : Int) (keys : List String) (s : GameState)
    (hgate : ¬ now - s.lastUpdateTime < 16)
    (hx1 : 25 ≤ s.pos.1) (hx2 : s.pos.1 ≤ 775)
    (hy1 : 25 ≤ s.pos.2) (hy2 : s.pos.2 ≤ 575) :
    (heldUp keys ≠ heldDown keys → heldLeft keys ≠ heldRight keys →
      ((updateGame now keys s).1.pos.1 - s.pos.1) *
          ((updateGame now keys s).1.pos.1 - s.pos.1) = 25 ∧
        ((updateGame now keys s).1.pos.2 - s.pos.2) *
          ((updateGame now keys s).1.pos.2 - s.pos.2) = 25 ∧
        ((updateGame now keys s).1.pos.1 - s.pos.1) *
            ((updateGame now keys s).1.pos.1 - s.pos.1) +
          ((updateGame now keys s).1.pos.2 - s.pos.2) *
            ((updateGame now keys s).1.pos.2 - s.pos.2) = 50) ∧
      (heldUp keys ≠ heldDown keys → heldLeft keys = false → heldRight keys = false →
        (updateGame now keys s).1.pos.1 = s.pos.1 ∧
          ((updateGame now keys s).1.pos.2 - s.pos.2) *
            ((updateGame now keys s).1.pos.2 - s.pos.2) = 25) ∧
      (heldUp keys = false → heldDown keys = false → heldLeft keys ≠ heldRight keys →
        (updateGame now keys s).1.pos.2 = s.pos.2 ∧
          ((updateGame now keys s).1.pos.1 - s.pos.1) *
            ((updateGame now keys s).1.pos.1 - s.pos.1) = 25) := by
  rw [updateGame_pos now keys s hgate]
  dsimp only
  obtain ⟨hXd, hXid⟩ := stepX_clamp keys s.pos.1 hx1 hx2
  obtain ⟨hYd, hYid⟩ := stepY_clamp keys s.pos.2 hy1 hy2
  refine ⟨fun h1 h2 => ?_, fun h1 h2 h3 => ?_, fun h1 h2 h3 => ?_⟩
  · refine ⟨sq_of_pm_five (hXd h2), sq_of_pm_five (hYd h1), ?_⟩
    rcases hXd h2 with hx | hx <;> rcases hYd h1 with hy | hy <;>
      rw [hx, hy] <;> norm_num
  · exact ⟨hXid h2 h3, sq_of_pm_five (hYd h1)⟩
  · exact ⟨hYid h1 h2, sq_of_pm_five (hXd h3)⟩

theorem diagonal_speed_witness :
    ((updateGame 100 ["w", "d"] (initState [])).1.pos.1 - 400) *
          ((updateGame 100 ["w", "d"] (initState [])).1.pos.1 - 400) +
        ((updateGame 100 ["w", "d"] (initState [])).1.pos.2 - 300) *
          ((updateGame 100 ["w", "d"] (initState [])).1.pos.2 - 300) = 50 :=
  ((diagonal_speed 100 ["w", "d"] (initState []) (by norm_num [initState])
    (by norm_num [initState]) (by norm_num [initState]) (by norm_num [initState])
    (by norm_num [initState])).1 (by decide) (by decide)).2.2

theorem updateGame_none_last (now : Int) (keys : List String) (s : GameState)
    (h : (updateGame now keys s).2 = none) :
    (updateGame now keys s).1.lastUpdateTime = s.lastUpdateTime := by
  unfold updateGame at h ⊢
  split at h <;> rename_i hgate
  · rw [if_pos hgate]
  · rw [if_neg hgate]
    dsimp only at h ⊢
    split at h <;> rename_i hmov
    · rw [if_pos hmov]
      split at h <;> rename_i hpush
      · simp at h
      · rw [if_neg hpush]
    · rw [if_neg hmov]

theorem updateGame_some_last (now : Int) (keys : List String) (s : GameState)
    (p : Int × Int) (h : (updateGame now keys s).2 = some p) :
    50 < now - s.lastUpdateTime ∧ (updateGame now keys s).1.lastUpdateTime = now := by
  unfold updateGame at h ⊢
  split at h <;> rename_i hgate
  · simp at h
  · rw [if_neg hgate]
    dsimp only at h ⊢
    split at h <;> rename_i hmov
    · rw [if_pos hmov]
      split at h <;> rename_i hpush
      · rw [if_pos hpush]
        exact ⟨hpush, rfl⟩
      · simp at h
    · simp at h

theorem pushTimes_sep (ticks : List (Int × List String)) (s : GameState) :
    List.Chain' (fun t1 t2 => t1 + 50 < t2) (pushTimes ticks s) ∧
      ∀ t, (pushTimes ticks s).head? = some t → s.lastUpdateTime + 50 < t := by
  induction ticks generalizing s with
  | nil => exact ⟨List.chain'_nil, fun t ht => by simp [pushTimes] at ht⟩
  | cons tk ts ih =>
    rcases hupd : updateGame tk.1 tk.2 s with ⟨s', op⟩
    rcases op with _ | p
    · have hn : (updateGame tk.1 tk.2 s).2 = none := by rw [hupd]
      have hlast : s'.lastUpdateTime = s.lastUpdateTime := by
        have h := updateGame_none_last tk.1 tk.2 s hn
        rwa [hupd] at h
      have hpt : pushTimes (tk :: ts) s = pushTimes ts s' := by
        simp only [pushTimes, hupd]
      rw [hpt]
      refine ⟨(ih s').1, fun t ht => ?_⟩
      have := (ih s').2 t ht
      omega
    · have hsome : (updateGame tk.1 tk.2 s).2 = some p := by rw [hupd]
      obtain ⟨hgap, hset⟩ := updateGame_some_last tk.1 tk.2 s p hsome
      have hlast : s'.lastUpdateTime = tk.1 := by rwa [hupd] at hset
      have hpt : pushTimes (tk :: ts) s = tk.1 :: pushTimes ts s' := by
        simp only [pushTimes, hupd]
      rw [hpt]
      constructor
      · rcases hrest : pushTimes ts s' with _ | ⟨t2, rest⟩
        · exact List.chain'_singleton tk.1
        · rw [List.chain'_cons]
          have hhead := (ih s').2 t2 (by rw [hrest]; rfl)
          have hch := (ih s').1
          rw [hrest] at hch
          exact ⟨by omega, hch⟩
      · intro t ht
        have : t = tk.1 := by simpa using ht.symm
        omega

/-- Claim C5: every two consecutive outbound position pushes produced by
a run of simulation ticks (from the initial state, whatever the
collectible field and held keys) are separated by more than 50 ms of the
wall-clock instants at which they were emitted. -/
theorem push_throttle (ticks : List (Int × List String)) (items0 : List Collectible) :
    List.Chain' (fun t1 t2 => t1 + 50 < t2) (pushTimes ticks (initState items0)) :=
  (pushTimes_sep ticks (initState items0)).1

/-- Iterated collision checking at a given sequence of player
positions (the positions `updateGame` hands to `checkCollisions` on the
successive ticks). -/
def runCollisions : List (Int × Int) → List Collectible × Int → List Collectible × Int
  | [], st => st
  | p :: ps, st => runCollisions ps (checkCollisions p.1 p.2 st.1 st.2)

/-- Sum of the point values of the currently collected items. -/
def collectedSum : List Collectible → Int
  | [] => 0
  | item :: rest => (if item.collected then item.value else 0) + collectedSum rest

/-- The total value newly collected by one collision check at `(x, y)`:
the amount by which the accumulated `newScore` exceeds the old score. -/
def tickDelta (x y : Int) : List Collectible → Int
  | [] => 0
  | item :: rest =>
    (if !item.collected && hit x y item then item.value else 0) + tickDelta x y rest

theorem foldl_delta_shift (x y : Int) (items : List Collectible) (a : Int) :
    items.foldl (fun acc item =>
        if !item.collected && hit x y item then acc + item.value else acc) a =
      a + tickDelta x y items := by
  induction items generalizing a with
  | nil => simp [tickDelta]
  | cons it ts ih =>
    rw [List.foldl_cons, ih]
    simp only [tickDelta]
    by_cases hc : (!it.collected && hit x y it) = true <;> simp [hc] <;> omega

theorem tickDelta_cons (x y : Int) (it : Collectible) (ts : List Collectible) :
    tickDelta x y (it :: ts) =
      (if !it.collected && hit x y it then it.value else 0) + tickDelta x y ts := rfl

theorem collectStep_collected (x y : Int) (item : Collectible)
    (h : item.collected = true) : collectStep x y item = item := by
  unfold collectStep
  rw [if_pos h]

theorem collectStep_value (x y : Int) (item : Collectible) :
    (collectStep x y item).value = item.value := by
  unfold collectStep
  split
  · rfl
  · split <;> rfl

theorem collectedSum_collectStep (x y : Int) (items : List Collectible) :
    collectedSum (items.map (collectStep x y)) =
      collectedSum items + tickDelta x y items := by
  induction items with
  | nil => rfl
  | cons it ts ih =>
    simp only [List.map_cons, collectedSum, tickDelta_cons, ih]
    by_cases hc : it.collected = true
    · simp [collectStep, hc] <;> omega
    · by_cases hh : hit x y it = true
      · simp [collectStep, hc, hh] <;> omega
      · simp [collectStep, hc, hh] <;> omega

theorem tickDelta_zero_of_not_any (x y : Int) (items : List Collectible)
    (h : items.any (fun item => !item.collected && hit x y item) = false) :
    tickDelta x y items = 0 := by
  induction items with
  | nil => rfl
  | cons it ts ih =>
    simp only [List.any_cons, Bool.or_eq_false_iff] at h
    rw [tickDelta_cons, h.1, ih h.2]
    simp

theorem checkCollisions_score (x y : Int) (items : List Collectible) (sc : Int) :
    (checkCollisions x y items sc).2 = sc + tickDelta x y items := by
  unfold checkCollisions
  dsimp only
  rw [foldl_delta_shift]
  by_cases hany : items.any (fun item => !item.collected && hit x y item) = true
  · by_cases hne : sc + tickDelta x y items = sc
    · rw [hne]
      split <;> rfl
    · rw [if_pos (by simp [Bool.and_eq_true, hany, bne_iff_ne, hne])]
  · rw [if_neg (by simp [hany])]
    rw [tickDelta_zero_of_not_any x y items (by simpa using hany)]
    omega

theorem checkCollisions_items (x y : Int) (items : List Collectible) (sc : Int) :
    (checkCollisions x y items sc).1 = items.map (collectStep x y) := rfl

theorem checkCollisions_values (x y : Int) (items : List Collectible) (sc : Int)
    (h : ∀ item ∈ items, 0 ≤ item.value) :
    ∀ item ∈ (checkCollisions x y items sc).1, 0 ≤ item.value := by
  intro item hmem
  rw [checkCollisions_items, List.mem_map] at hmem
  obtain ⟨u, hu, rfl⟩ := hmem
  rw [collectStep_value]
  exact h u hu

theorem tickDelta_nonneg (x y : Int) (items : List Collectible)
    (h : ∀ item ∈ items, 0 ≤ item.value) : 0 ≤ tickDelta x y items := by
  induction items with
  | nil => simp [tickDelta]
  | cons it ts ih =>
    rw [tickDelta_cons]
    have h1 := h it (List.mem_cons_self it ts)
    have h2 := ih (fun u hu => h u (List.mem_cons_of_mem it hu))
    split <;> omega

theorem collectedSum_nonneg (items : List Collectible)
    (h : ∀ item ∈ items, 0 ≤ item.value) : 0 ≤ collectedSum items := by
  induction items with
  | nil => simp [collectedSum]
  | cons it ts ih =>
    simp only [collectedSum]
    have h1 := h it (List.mem_cons_self it ts)
    have h2 := ih (fun u hu => h u (List.mem_cons_of_mem it hu))
    split <;> omega

theorem collectedSum_uncollected (items : List Collectible)
    (h : ∀ item ∈ items, item.collected = false) : collectedSum items = 0 := by
  induction items with
  | nil => rfl
  | cons it ts ih =>
    simp only [collectedSum]
    rw [h it (List.mem_cons_self it ts),
      ih (fun u hu => h u (List.mem_cons_of_mem it hu))]
    simp

theorem updateGame_items_score (now : Int) (keys : List String) (s : GameState) :
    ((updateGame now keys s).1.items = s.items ∧
        (updateGame now keys s).1.myScore = s.myScore) ∨
      ∃ x y, (updateGame now keys s).1.items = (checkCollisions x y s.items s.myScore).1 ∧
        (updateGame now keys s).1.myScore = (checkCollisions x y s.items s.myScore).2 := by
  unfold updateGame
  split
  · exact Or.inl ⟨rfl, rfl⟩
  · dsimp only
    refine Or.inr ⟨max 20 (min 780 (stepX keys s.pos.1)),
      max 20 (min 580 (stepY keys s.pos.2)), ?_⟩
    split
    · split <;> exact ⟨rfl, rfl⟩
    · exact ⟨rfl, rfl⟩

theorem updateGame_inv (now : Int) (keys : List String) (s : GameState)
    (hsum : s.myScore = collectedSum s.items)
    (hval : ∀ item ∈ s.items, 0 ≤ item.value) :
    ((updateGame now keys s).1.myScore = collectedSum (updateGame now keys s).1.items) ∧
      (∀ item ∈ (updateGame now keys s).1.items, 0 ≤ item.value) ∧
      s.myScore ≤ (updateGame now keys s).1.myScore ∧
      (updateGame now keys s).1.myScore - s.myScore =
        collectedSum (updateGame now keys s).1.items - collectedSum s.items := by
  rcases updateGame_items_score now keys s with ⟨hi, hs⟩ | ⟨x, y, hi, hs⟩
  · rw [hi, hs]
    exact ⟨hsum, hval, le_refl _, by omega⟩
  · have hsc := checkCollisions_score x y s.items s.myScore
    have hcs : collectedSum (checkCollisions x y s.items s.myScore).1 =
        collectedSum s.items + tickDelta x y s.items := by
      rw [checkCollisions_items]
      exact collectedSum_collectStep x y s.items
    have hd := tickDelta_nonneg x y s.items hval
    rw [hi, hs]
    exact ⟨by omega, checkCollisions_values x y s.items s.myScore hval, by omega, by omega⟩

theorem runGame_inv (ticks : List (Int × List String)) (s : GameState)
    (hsum : s.myScore = collectedSum s.items)
    (hval : ∀ item ∈ s.items, 0 ≤ item.value) :
    ((runGame ticks s).myScore = collectedSum (runGame ticks s).items) ∧
      (∀ item ∈ (runGame ticks s).items, 0 ≤ item.value) ∧
      s.myScore ≤ (runGame ticks s).myScore := by
  induction ticks generalizing s with
  | nil => exact ⟨hsum, hval, le_refl _⟩
  | cons tk ts ih =>
    simp only [runGame]
    obtain ⟨h1, h2, h3, _⟩ := updateGame_inv tk.1 tk.2 s hsum hval
    obtain ⟨g1, g2, g3⟩ := ih (updateGame tk.1 tk.2 s).1 h1 h2
    exact ⟨g1, g2, by omega⟩

theorem runGame_append (a b : List (Int × List String)) (s : GameState) :
    runGame (a ++ b) s = runGame b (runGame a s) := by
  induction a generalizing s with
  | nil => rfl
  | cons t ts ih => exact ih _

theorem values_nonneg (t : String) : 0 ≤ values t := by
  unfold values
  split
  · norm_num
  · split
    · norm_num
    · split <;> norm_num

theorem init_items_flags (dateNow : Int) (pick : Nat → Fin types.length)
    (posf : Nat → Int × Int) :
    (∀ item ∈ initializeCollectibles dateNow pick posf, item.collected = false) ∧
      ∀ item ∈ initializeCollectibles dateNow pick posf, 0 ≤ item.value := by
  constructor <;> intro item hmem <;>
    · simp only [initializeCollectibles, List.mem_map, List.mem_range] at hmem
      obtain ⟨i, hi, rfl⟩ := hmem
      first | rfl | exact values_nonneg _

/-- Claim C10: starting a run from the initial state with the generated
collectible field, the local score always equals the sum of the values
of exactly the collected items; consequently the score is nonnegative
and non-decreasing under any extension of the run, and one further tick
changes the score by exactly the total value of the items it newly
collects (several items hit on one tick all count in that tick). -/
theorem score_is_collectedSum (ticks more : List (Int × List String))
    (now : Int) (keys : List String) (dateNow : Int)
    (pick : Nat → Fin types.length) (posf : Nat → Int × Int) :
    (runGame ticks (initState (initializeCollectibles dateNow pick posf))).myScore =
        collectedSum
          (runGame ticks (initState (initializeCollectibles dateNow pick posf))).items ∧
      0 ≤ (runGame ticks (initState (initializeCollectibles dateNow pick posf))).myScore ∧
      (runGame ticks (initState (initializeCollectibles dateNow pick posf))).myScore ≤
        (runGame (ticks ++ more)
          (initState (initializeCollectibles dateNow pick posf))).myScore ∧
      (updateGame now keys
            (runGame ticks (initState (initializeCollectibles dateNow pick posf)))).1.myScore -
          (runGame ticks (initState (initializeCollectibles dateNow pick posf))).myScore =
        collectedSum
            (updateGame now keys
              (runGame ticks (initState (initializeCollectibles dateNow pick posf)))).1.items -
          collectedSum
            (runGame ticks (initState (initializeCollectibles dateNow pick posf))).items := by
  obtain ⟨hcoll, hval⟩ := init_items_flags dateNow pick posf
  have hsum0 : (initState (initializeCollectibles dateNow pick posf)).myScore =
      collectedSum (initState (initializeCollectibles dateNow pick posf)).items := by
    simp only [initState]
    rw [collectedSum_uncollected _ hcoll]
  obtain ⟨h1, h2, _⟩ :=
    runGame_inv ticks (initState (initializeCollectibles dateNow pick posf)) hsum0 hval
  have hnn := collectedSum_nonneg _ h2
  obtain ⟨g1, g2, g3⟩ := runGame_inv more
    (runGame ticks (initState (initializeCollectibles dateNow pick posf))) h1 h2
  obtain ⟨_, _, _, u4⟩ := updateGame_inv now keys
    (runGame ticks (initState (initializeCollectibles dateNow pick posf))) h1 h2
  refine ⟨h1, by omega, ?_, u4⟩
  rw [runGame_append]
  exact g3

theorem checkCollisions_get_collected (x y : Int) (items : List Collectible)
    (sc : Int) (i : Nat) (it : Collectible)
    (hget : items[i]? = some it) (hc : it.collected = true) :
    (checkCollisions x y items sc).1[i]? = some it := by
  rw [checkCollisions_items, List.getElem?_map, hget]
  simp [collectStep_collected x y it hc]

theorem tickDelta_set_collected (x y : Int) (items : List Collectible) (i : Nat)
    (it : Collectible) (v : Int) (hget : items[i]? = some it)
    (hc : it.collected = true) :
    tickDelta x y (items.set i { it with value := v }) = tickDelta x y items := by
  induction items generalizing i with
  | nil => simp at hget
  | cons hd ts ih =>
    cases i with
    | zero =>
      simp only [List.getElem?_cons_zero, Option.some_inj] at hget
      subst hget
      rw [List.set_cons_zero, tickDelta_cons, tickDelta_cons]
      simp [hc]
    | succ n =>
      simp only [List.getElem?_cons_succ] at hget
      rw [List.set_cons_succ, tickDelta_cons, tickDelta_cons, ih n hget]

theorem any_set_collected (x y : Int) (items : List Collectible) (i : Nat)
    (it : Collectible) (v : Int) (hget : items[i]? = some it)
    (hc : it.collected = true) :
    (items.set i { it with value := v }).any
        (fun item => !item.collected && hit x y item) =
      items.any (fun item => !item.collected && hit x y item) := by
  induction items generalizing i with
  | nil => simp at hget
  | cons hd ts ih =>
    cases i with
    | zero =>
      simp only [List.getElem?_cons_zero, Option.some_inj] at hget
      subst hget
      rw [List.set_cons_zero, List.any_cons, List.any_cons]
      simp [hc]
    | succ n =>
      simp only [List.getElem?_cons_succ] at hget
      rw [List.set_cons_succ, List.any_cons, List.any_cons, ih n hget]

theorem checkCollisions_set (x y : Int) (items : List Collectible) (sc : Int)
    (i : Nat) (it : Collectible) (v : Int) (hget : items[i]? = some it)
    (hc : it.collected = true) :
    checkCollisions x y (items.set i { it with value := v }) sc =
      ((checkCollisions x y items sc).1.set i { it with value := v },
        (checkCollisions x y items sc).2) := by
  unfold checkCollisions
  dsimp only
  rw [foldl_delta_shift, foldl_delta_shift,
    tickDelta_set_collected x y items i it v hget hc,
    any_set_collected x y items i it v hget hc, List.map_set,
    collectStep_collected x y { it with value := v } hc]

theorem runCollisions_get_collected (ps : List (Int × Int))
    (items : List Collectible) (sc : Int) (i : Nat) (it : Collectible)
    (hget : items[i]? = some it) (hc : it.collected = true) :
    (runCollisions ps (items, sc)).1[i]? = some it := by
  induction ps generalizing items sc with
  | nil => exact hget
  | cons p ps ih =>
    simp only [runCollisions]
    exact ih _ _ (checkCollisions_get_collected p.1 p.2 items sc i it hget hc)

theorem runCollisions_set (ps : List (Int × Int)) (items : List Collectible)
    (sc : Int) (i : Nat) (it : Collectible) (v : Int)
    (hget : items[i]? = some it) (hc : it.collected = true) :
    runCollisions ps (items.set i { it with value := v }, sc) =
      ((runCollisions ps (items, sc)).1.set i { it with value := v },
        (runCollisions ps (items, sc)).2) := by
  induction ps generalizing items sc with
  | nil => rfl
  | cons p ps ih =>
    simp only [runCollisions]
    rw [checkCollisions_set p.1 p.2 items sc i it v hget hc]
    exact ih _ _ (checkCollisions_get_collected p.1 p.2 items sc i it hget hc)

theorem renderItems_not_collected (items : List Collectible) :
    ∀ item ∈ renderItems items, item.collected = false := by
  intro item hmem
  rw [renderItems, List.mem_filter] at hmem
  simpa using hmem.2

/-- Claim C3: once a collectible's collected flag is set, any further
sequence of collision checks (whatever positions the player visits)
leaves its entry untouched (the flag is never reset), adds its value to
the score on no subsequent tick (the final score does not depend on the
collected item's value), and the renderer's item list never contains a
collected item. -/
theorem collected_permanent (ps : List (Int × Int)) (items : List Collectible)
    (sc : Int) (i : Nat) (it : Collectible)
    (hget : items[i]? = some it) (hc : it.collected = true) :
    (runCollisions ps (items, sc)).1[i]? = some it ∧
      (∀ v, (runCollisions ps (items.set i { it with value := v }, sc)).2 =
        (runCollisions ps (items, sc)).2) ∧
      ∀ u ∈ renderItems (runCollisions ps (items, sc)).1, u.collected = false :=
  ⟨runCollisions_get_collected ps items sc i it hget hc,
    fun v => by rw [runCollisions_set ps items sc i it v hget hc],
    renderItems_not_collected _⟩

/-- A collected item used as the concrete input of the claim-C3
witness. -/
def demoItem : Collectible := ⟨(0, 0), 100, 100, "coin", 10, true⟩

theorem collected_permanent_witness :
    (runCollisions [(100, 100)] ([demoItem], 0)).1[0]? = some demoItem ∧
      (runCollisions [(100, 100)] ([demoItem].set 0 { demoItem with value := 999 }, 0)).2 =
        (runCollisions [(100, 100)] ([demoItem], 0)).2 := by
  have h := collected_permanent [(100, 100)] [demoItem] 0 0 demoItem rfl rfl
  exact ⟨h.1, h.2.1 999⟩

/-- The room-participant row: the fields of the remote `room_players`
record consumed by the canvas unit. -/
structure RoomPlayer where
  id : String
  player_id : String
  position_x : Int
  position_y : Int
  score : Int
  is_ready : Bool
deriving DecidableEq

/-- The effective score the `endGame` comparator assigns a participant:
the authoritative local `myScore` for the local player, the remote
mirror's score otherwise. -/
def effScore (localId : String) (myScore : Int) (rp : RoomPlayer) : Int :=
  if rp.player_id = localId then myScore else rp.score

/-- `endGame`'s ranking sort:
`[...roomPlayers].sort((a, b) => scoreB - scoreA)` with the effective
scores.  JS `Array.prototype.sort` is specified to be stable and to
order by the comparator, so it is modelled by the stable `mergeSort`
placing larger effective scores first. -/
def sortedPlayers (localId : String) (myScore : Int)
    (roomPlayers : List RoomPlayer) : List RoomPlayer :=
  roomPlayers.mergeSort
    (fun a b => decide (effScore localId myScore b ≤ effScore localId myScore a))

/-- JS `Array.prototype.findIndex`: the index of the first match, `-1`
when there is none. -/
def findIndexJS (p : RoomPlayer → Bool) (l : List RoomPlayer) : Int :=
  if l.findIdx p < l.length then (l.findIdx p : Int) else -1

/-- `endGame`'s `myRank`: 1 + the position of the local player in the
sorted list. -/
def myRank (localId : String) (myScore : Int)
    (roomPlayers : List RoomPlayer) : Int :=
  findIndexJS (fun rp => rp.player_id == localId)
    (sortedPlayers localId myScore roomPlayers) + 1

/-- Claim C7: the finalization ranking is a permutation of the
participants sorted by effective score descending (the authoritative
local score substituted for the local participant, each remote mirror's
score for the others); ties keep the original list order (stability:
any two participants with equal effective scores appearing in order in
the input appear in the same order in the output); and when the local
player is present, `myRank` is the 1-based index of the first local
entry of that order. -/
theorem ranking_spec (localId : String) (myScore : Int) (rps : List RoomPlayer) :
    (sortedPlayers localId myScore rps).Perm rps ∧
      List.Pairwise (fun a b =>
          effScore localId myScore b ≤ effScore localId myScore a)
        (sortedPlayers localId myScore rps) ∧
      (∀ a b : RoomPlayer,
        effScore localId myScore a = effScore localId myScore b →
        List.Sublist [a, b] rps →
        List.Sublist [a, b] (sortedPlayers localId myScore rps)) ∧
      ∀ rp ∈ rps, rp.player_id = localId →
        ∃ k : Nat, myRank localId myScore rps = (k : Int) + 1 ∧
          (∃ u, (sortedPlayers localId myScore rps)[k]? = some u ∧
            u.player_id = localId) ∧
          ∀ j, j < k → ∀ u, (sortedPlayers localId myScore rps)[j]? = some u →
            u.player_id ≠ localId := by
  have htrans : ∀ a b c : RoomPlayer,
      decide (effScore localId myScore b ≤ effScore localId myScore a) = true →
      decide (effScore localId myScore c ≤ effScore localId myScore b) = true →
      decide (effScore localId myScore c ≤ effScore localId myScore a) = true := by
    intro a b c hab hbc
    simp only [decide_eq_true_eq] at hab hbc ⊢
    omega
  have htotal : ∀ a b : RoomPlayer,
      (decide (effScore localId myScore b ≤ effScore localId myScore a) ||
        decide (effScore localId myScore a ≤ effScore localId myScore b)) = true := by
    intro a b
    simp only [Bool.or_eq_true, decide_eq_true_eq]
    exact le_total _ _
  refine ⟨List.mergeSort_perm rps _, ?_, ?_, ?_⟩
  · exact (List.sorted_mergeSort htrans htotal rps).imp (fun h => by simpa using h)
  · intro a b heq hsub
    refine List.sublist_mergeSort htrans htotal ?_ hsub
    simp [List.pairwise_cons, decide_eq_true_eq, heq]
  · intro rp hmem hid
    have hmem' : rp ∈ sortedPlayers localId myScore rps :=
      (List.Perm.mem_iff (List.mergeSort_perm rps _)).2 hmem
    have hfound : ∃ x ∈ sortedPlayers localId myScore rps,
        (x.player_id == localId) = true := ⟨rp, hmem', by simp [hid]⟩
    have hlt := List.findIdx_lt_length_of_exists hfound
    refine ⟨List.findIdx (fun x => x.player_id == localId)
      (sortedPlayers localId myScore rps), ?_, ?_, ?_⟩
    · unfold myRank findIndexJS
      rw [if_pos hlt]
    · refine ⟨(sortedPlayers localId myScore rps)[List.findIdx
        (fun x => x.player_id == localId) (sortedPlayers localId myScore rps)], ?_, ?_⟩
      · exact List.getElem?_eq_getElem hlt
      · have := List.findIdx_getElem (w := hlt)
        simpa using this
    · intro j hj u hu
      have hjlt : j < (sortedPlayers localId myScore rps).length := lt_trans hj hlt
      have hu' : u = (sortedPlayers localId myScore rps)[j] := by
        rw [List.getElem?_eq_getElem hjlt] at hu
        exact (Option.some_inj.1 hu).symm
      have hfalse := List.not_of_lt_findIdx hj
      rw [← hu'] at hfalse
      simpa using hfalse

/-- The participant list of the spec's ranking example: effective scores
[30, 50, 50, 10] with the local player at index 1 (stored score 40,
authoritative local score 50). -/
def exampleRoom : List RoomPlayer :=
  [⟨"r0", "p0", 0, 0, 30, true⟩, ⟨"r1", "p1", 0, 0, 40, true⟩,
    ⟨"r2", "p2", 0, 0, 50, true⟩, ⟨"r3", "p3", 0, 0, 10, true⟩]

theorem ranking_spec_witness :
    List.Sublist [⟨"r1", "p1", 0, 0, 40, true⟩, ⟨"r2", "p2", 0, 0, 50, true⟩]
        (sortedPlayers "p1" 50 exampleRoom) ∧
      myRank "p1" 50 exampleRoom = 1 := by
  have h := ranking_spec "p1" 50 exampleRoom
  refine ⟨h.2.2.1 _ _ (by decide) (by decide), ?_⟩
  simp +decide [myRank, findIndexJS, sortedPlayers, exampleRoom, effScore,
    List.mergeSort, List.findIdx_cons]

end Game
